import Mathlib

/-!
Verification of the SonaVerta text-to-speech studio core (src/index.tsx):
the binary codec (base64 → bytes → signed 16-bit PCM samples), the WAV
container encoder (`createWavBlob`), the bounded persisted history store
(`saveToHistory` / `handleClearHistory` / the load effect), the in-memory
voice sample cache keyed by `voiceId-langCode`, the single-slot playback
controller (`playFromBase64` and the stop button), and the `Date.now()`
based history identifiers.

Bytes are modelled as `Nat` below 256, byte buffers as `List Nat`, JS
strings as Lean `String` (or `List Char` for character-level work).
-/

/-! ### Binary codec: base64 and 16-bit samples (src/index.tsx lines 59-85) -/

/-- Standard base64 alphabet, index ↦ character. -/
def b64Chars : List Char :=
  "ABCDEFGHIJKLMNOPQRSTUVWXYZabcdefghijklmnopqrstuvwxyz0123456789+/".toList

/-- Character of a sextet value (0..63). -/
def sextetChar (n : Nat) : Char := b64Chars.getD n '='

/-- Sextet value of an alphabet character (inverse lookup). -/
def charSextet (c : Char) : Nat := b64Chars.indexOf c

/-- Standard base64 encoding of a byte buffer, three bytes to four
characters, with trailing filler characters for a final incomplete group.
This is the encoding the remote synthesis boundary applies to the raw PCM
payload; the repository consumes it through the browser builtin `atob`. -/
def encodeB64 : List Nat → List Char
  | [] => []
  | [b0] => [sextetChar (b0 / 4), sextetChar (b0 % 4 * 16), '=', '=']
  | [b0, b1] => [sextetChar (b0 / 4), sextetChar (b0 % 4 * 16 + b1 / 16),
      sextetChar (b1 % 16 * 4), '=']
  | b0 :: b1 :: b2 :: rest =>
      sextetChar (b0 / 4) :: sextetChar (b0 % 4 * 16 + b1 / 16) ::
      sextetChar (b1 % 16 * 4 + b2 / 64) :: sextetChar (b2 % 64) :: encodeB64 rest

/-- Model of the browser builtin `atob`, viewed through the byte-copy loop
of `decode` (src/index.tsx lines 59-66): each four-character base64 group
is turned back into three bytes (fewer for a padded final group), and
`bytes[i] = binaryString.charCodeAt(i)` yields exactly these byte values. -/
def atobBytes : List Char → List Nat
  | c0 :: c1 :: c2 :: c3 :: rest =>
      if c2 = '=' then
        [charSextet c0 * 4 + charSextet c1 / 16]
      else if c3 = '=' then
        [charSextet c0 * 4 + charSextet c1 / 16,
         charSextet c1 % 16 * 16 + charSextet c2 / 4]
      else
        (charSextet c0 * 4 + charSextet c1 / 16) ::
        (charSextet c1 % 16 * 16 + charSextet c2 / 4) ::
        (charSextet c2 % 4 * 64 + charSextet c3) :: atobBytes rest
  | _ => []

/-- Embedding of `decode` (src/index.tsx lines 59-66): base64 text to a
byte buffer via `atob` and a per-index `charCodeAt` copy. -/
def decode (base64 : List Char) : List Nat := atobBytes base64

/-- Interpretation of a pair of bytes as one signed 16-bit little-endian
sample, exactly as the `Int16Array` view in `decodeAudioData` reads it. -/
def int16OfBytes (lo hi : Nat) : Int :=
  if lo + 256 * hi < 32768 then (lo + 256 * hi : Int)
  else (lo + 256 * hi : Int) - 65536

/-- Sample sequence read by the `Int16Array` view of a byte buffer
(src/index.tsx line 74), little-endian pairs. -/
def toInt16 : List Nat → List Int
  | lo :: hi :: rest => int16OfBytes lo hi :: toInt16 rest
  | _ => []

/-- Codec-level failures (spec §7 taxonomy). -/
inductive CodecError where
  | malformedPayload
deriving DecidableEq

/-- Embedding of the sample-decoding path of `decodeAudioData`
(src/index.tsx lines 68-85, mono): the `new Int16Array(data.buffer)` view
throws a `RangeError` when the byte length is not a multiple of 2 —
modelled as the spec's `MalformedPayload` — and otherwise yields the
signed 16-bit little-endian sample sequence. -/
def decodeSamples (base64 : List Char) : Except CodecError (List Int) :=
  let data := decode base64
  if data.length % 2 = 0 then Except.ok (toInt16 data)
  else Except.error CodecError.malformedPayload

theorem charSextet_sextetChar : ∀ n < 64, charSextet (sextetChar n) = n := by decide

theorem sextetChar_ne_pad : ∀ n < 64, sextetChar n ≠ '=' := by decide

theorem atobBytes_pad2 (c0 c1 : Char) (rest : List Char) :
    atobBytes (c0 :: c1 :: '=' :: '=' :: rest) =
      [charSextet c0 * 4 + charSextet c1 / 16] := by
  rw [atobBytes, if_pos rfl]

theorem atobBytes_pad1 (c0 c1 c2 : Char) (rest : List Char) (h2 : c2 ≠ '=') :
    atobBytes (c0 :: c1 :: c2 :: '=' :: rest) =
      [charSextet c0 * 4 + charSextet c1 / 16,
       charSextet c1 % 16 * 16 + charSextet c2 / 4] := by
  rw [atobBytes, if_neg h2, if_pos rfl]

theorem atobBytes_full (c0 c1 c2 c3 : Char) (rest : List Char)
    (h2 : c2 ≠ '=') (h3 : c3 ≠ '=') :
    atobBytes (c0 :: c1 :: c2 :: c3 :: rest) =
      (charSextet c0 * 4 + charSextet c1 / 16) ::
      (charSextet c1 % 16 * 16 + charSextet c2 / 4) ::
      (charSextet c2 % 4 * 64 + charSextet c3) :: atobBytes rest := by
  rw [atobBytes, if_neg h2, if_neg h3]

theorem atobBytes_encodeB64 (B : List Nat) :
    (∀ b ∈ B, b < 256) → atobBytes (encodeB64 B) = B := by
  induction B using encodeB64.induct with
  | case1 => intro _; rfl
  | case2 b0 =>
    intro h
    have hb0 : b0 < 256 := h b0 (by simp)
    rw [encodeB64, atobBytes_pad2]
    rw [charSextet_sextetChar _ (by omega), charSextet_sextetChar _ (by omega)]
    simp only [List.cons.injEq, and_true]
    omega
  | case3 b0 b1 =>
    intro h
    have hb0 : b0 < 256 := h b0 (by simp)
    have hb1 : b1 < 256 := h b1 (by simp)
    rw [encodeB64, atobBytes_pad1 _ _ _ _ (sextetChar_ne_pad _ (by omega))]
    rw [charSextet_sextetChar _ (by omega), charSextet_sextetChar _ (by omega),
      charSextet_sextetChar _ (by omega)]
    simp only [List.cons.injEq, and_true]
    omega
  | case4 b0 b1 b2 rest ih =>
    intro h
    have hb0 : b0 < 256 := h b0 (by simp)
    have hb1 : b1 < 256 := h b1 (by simp)
    have hb2 : b2 < 256 := h b2 (by simp)
    rw [encodeB64, atobBytes_full _ _ _ _ _ (sextetChar_ne_pad _ (by omega))
      (sextetChar_ne_pad _ (by omega))]
    rw [charSextet_sextetChar _ (by omega), charSextet_sextetChar _ (by omega),
      charSextet_sextetChar _ (by omega), charSextet_sextetChar _ (by omega)]
    rw [ih (fun b hb => h b (by simp [hb]))]
    simp only [List.cons.injEq, and_true]
    omega

/-- Claim C2: for every even-length byte buffer B, base64-encoding B and
then decoding (`decode` followed by the `Int16Array` view of
`decodeAudioData`) recovers exactly the signed 16-bit little-endian
samples encoded in B — the round trip loses no information. -/
theorem base64_int16_roundtrip (B : List Nat)
    (heven : B.length % 2 = 0) (hbytes : ∀ b ∈ B, b < 256) :
    decodeSamples (encodeB64 B) = Except.ok (toInt16 B) := by
  unfold decodeSamples decode
  rw [atobBytes_encodeB64 B hbytes]
  simp only [heven]
  rfl

theorem base64_int16_roundtrip_witness :
    ([1, 255, 128, 0] : List Nat).length % 2 = 0 ∧
    (∀ b ∈ ([1, 255, 128, 0] : List Nat), b < 256) ∧
    decodeSamples (encodeB64 [1, 255, 128, 0]) = Except.ok (toInt16 [1, 255, 128, 0]) :=
  ⟨by decide, by decide, base64_int16_roundtrip [1, 255, 128, 0] (by decide) (by decide)⟩

/-- Claim C5: for every base64 input whose decoded byte length is odd, the
sample-decoding operation fails with `MalformedPayload` (the `RangeError`
of the odd-length `Int16Array` view) and returns no sample sequence. -/
theorem decodeSamples_odd_fails (base64 : List Char)
    (hodd : (decode base64).length % 2 = 1) :
    decodeSamples base64 = Except.error CodecError.malformedPayload := by
  unfold decodeSamples
  simp only [hodd]
  rfl

theorem decodeSamples_odd_fails_witness :
    (decode ['Q', 'Q', '=', '=']).length % 2 = 1 ∧
    decodeSamples ['Q', 'Q', '=', '='] = Except.error CodecError.malformedPayload :=
  ⟨by decide, decodeSamples_odd_fails ['Q', 'Q', '=', '='] (by decide)⟩

/-! ### Container encoder: `createWavBlob` (src/index.tsx lines 283-300) -/

/-- Little-endian 16-bit write (`DataView.setUint16(off, v, true)`). -/
def le16 (v : Nat) : List Nat := [v % 256, v / 256 % 256]

/-- Little-endian 32-bit write (`DataView.setUint32(off, v, true)`). -/
def le32 (v : Nat) : List Nat :=
  [v % 256, v / 256 % 256, v / 65536 % 256, v / 16777216 % 256]

/-- Big-endian 32-bit write (`DataView.setUint32(off, v, false)`), used
for the four-character ASCII tags. -/
def be32 (v : Nat) : List Nat :=
  [v / 16777216 % 256, v / 65536 % 256, v / 256 % 256, v % 256]

/-- The 44-byte WAV header written by `createWavBlob` for a PCM byte
length `n` and sample rate `sampleRate`, fields at offsets 0..40 in
source order. -/
def wavHeader (n sampleRate : Nat) : List Nat :=
  be32 0x52494646 ++ le32 (36 + n) ++ be32 0x57415645 ++ be32 0x666d7420 ++
  le32 16 ++ le16 1 ++ le16 1 ++ le32 sampleRate ++ le32 (sampleRate * 2) ++
  le16 2 ++ le16 16 ++ be32 0x64617461 ++ le32 n

/-- Embedding of `createWavBlob` (src/index.tsx lines 283-300): the
44-byte header followed by the raw PCM bytes (`new Blob([header, pcmData])`). -/
def createWavBlob (pcmData : List Nat) (sampleRate : Nat) : List Nat :=
  wavHeader pcmData.length sampleRate ++ pcmData

/-- Reads a little-endian 16-bit field at byte offset `off`. -/
def readLE16 (bs : List Nat) (off : Nat) : Nat :=
  bs.getD off 0 + 256 * bs.getD (off + 1) 0

/-- Reads a little-endian 32-bit field at byte offset `off`. -/
def readLE32 (bs : List Nat) (off : Nat) : Nat :=
  bs.getD off 0 + 256 * bs.getD (off + 1) 0 + 65536 * bs.getD (off + 2) 0 +
  16777216 * bs.getD (off + 3) 0

/-- Reads a four-byte big-endian ASCII tag at byte offset `off`. -/
def readTag (bs : List Nat) (off : Nat) : List Nat :=
  [bs.getD off 0, bs.getD (off + 1) 0, bs.getD (off + 2) 0, bs.getD (off + 3) 0]

theorem wavHeader_length (n sr : Nat) : (wavHeader n sr).length = 44 := rfl

/-- Claim C1: `createWavBlob pcm sr` produces exactly `44 + pcm.length`
bytes — a 44-byte header followed by the raw PCM bytes unchanged — whose
chunk-size field (offset 4, little-endian 32-bit) is `36 + pcm.length`,
audio-format code 1, channel count 1, sample-rate field `sr`, byte-rate
field `sr * 2`, block-align 2, bits-per-sample 16, subchunk-2 size
`pcm.length`, and whose `RIFF`, `WAVE`, `fmt ` and `data` identifiers are
stored as big-endian ASCII tags. The fields are 32-bit writes, so the
sizes and rate are assumed to fit 32 bits. -/
theorem createWavBlob_layout (pcm : List Nat) (sr : Nat)
    (hn : 36 + pcm.length < 4294967296) (hr : sr * 2 < 4294967296) :
    (createWavBlob pcm sr).length = 44 + pcm.length ∧
    (createWavBlob pcm sr).drop 44 = pcm ∧
    readLE32 (createWavBlob pcm sr) 4 = 36 + pcm.length ∧
    readLE16 (createWavBlob pcm sr) 20 = 1 ∧
    readLE16 (createWavBlob pcm sr) 22 = 1 ∧
    readLE32 (createWavBlob pcm sr) 24 = sr ∧
    readLE32 (createWavBlob pcm sr) 28 = sr * 2 ∧
    readLE16 (createWavBlob pcm sr) 32 = 2 ∧
    readLE16 (createWavBlob pcm sr) 34 = 16 ∧
    readLE32 (createWavBlob pcm sr) 40 = pcm.length ∧
    readTag (createWavBlob pcm sr) 0 = [0x52, 0x49, 0x46, 0x46] ∧
    readTag (createWavBlob pcm sr) 8 = [0x57, 0x41, 0x56, 0x45] ∧
    readTag (createWavBlob pcm sr) 12 = [0x66, 0x6d, 0x74, 0x20] ∧
    readTag (createWavBlob pcm sr) 36 = [0x64, 0x61, 0x74, 0x61] := by
  refine ⟨?_, ?_, ?_, ?_, ?_, ?_, ?_, ?_, ?_, ?_, ?_, ?_, ?_, ?_⟩ <;>
    simp [createWavBlob, wavHeader, le16, le32, be32, readLE16, readLE32, readTag] <;>
    omega

theorem createWavBlob_layout_witness :
    36 + ([0, 64, 0, 192] : List Nat).length < 4294967296 ∧
    24000 * 2 < 4294967296 ∧
    (createWavBlob [0, 64, 0, 192] 24000).length = 44 + ([0, 64, 0, 192] : List Nat).length ∧
    readLE32 (createWavBlob [0, 64, 0, 192] 24000) 24 = 24000 :=
  ⟨by decide, by decide,
    (createWavBlob_layout [0, 64, 0, 192] 24000 (by decide) (by decide)).1,
    (createWavBlob_layout [0, 64, 0, 192] 24000 (by decide) (by decide)).2.2.2.2.2.1⟩

/-! ### History store (src/index.tsx lines 29-38, 130-150) -/

/-- Embedding of the `AudioHistoryItem` interface (src/index.tsx lines
29-38). -/
structure AudioHistoryItem where
  id : String
  text : String
  voice : String
  voiceLabel : String
  language : String
  languageName : String
  timestamp : String
  audioData : String
deriving DecidableEq

/-- The history-relevant application state: the in-memory `history` React
state and the `sonaverta_history_v10` record of `localStorage` (absent =
`none`). -/
structure AppState where
  history : List AudioHistoryItem
  storage : Option String
deriving DecidableEq

/-- The state at process start: empty history, no persisted record. -/
def initialAppState : AppState := { history := [], storage := none }

/-- Embedding of `saveToHistory` (src/index.tsx lines 141-145): prepend
the item, truncate with `.slice(0, 50)`, store the result in memory and
re-serialize it to the persisted record. `stringify` stands for the
platform `JSON.stringify`. -/
def saveToHistory (stringify : List AudioHistoryItem → String)
    (item : AudioHistoryItem) (s : AppState) : AppState :=
  let newHistory := (item :: s.history).take 50
  { history := newHistory, storage := some (stringify newHistory) }

/-- Embedding of `handleClearHistory` (src/index.tsx lines 147-150):
`setHistory([])` and `localStorage.removeItem` — the record is removed,
not overwritten with an empty sequence. -/
def handleClearHistory (_s : AppState) : AppState :=
  { history := [], storage := none }

/-- Embedding of the load effect (src/index.tsx lines 130-139): read the
persisted record; if present, `JSON.parse` it inside `try`/`catch` —
a parse failure is only logged and leaves the state unchanged. `parse`
stands for the platform `JSON.parse`, `Except.error` for a thrown
exception. The function is total: no failure escapes to the caller. -/
def loadHistory (parse : String → Except String (List AudioHistoryItem))
    (s : AppState) : AppState :=
  match s.storage with
  | none => s
  | some str =>
    match parse str with
    | Except.ok h => { s with history := h }
    | Except.error _ => s

/-- Sequential appends, oldest first, as successive `saveToHistory` calls. -/
def appendAll (stringify : List AudioHistoryItem → String)
    (s : AppState) (items : List AudioHistoryItem) : AppState :=
  items.foldl (fun st it => saveToHistory stringify it st) s

theorem take_append_take (n : Nat) (X Y : List AudioHistoryItem) :
    (X ++ Y.take n).take n = (X ++ Y).take n := by
  rw [List.take_append_eq_append_take, List.take_append_eq_append_take, List.take_take]
  have : min (n - X.length) n = n - X.length := by omega
  rw [this]

theorem appendAll_history (stringify : List AudioHistoryItem → String) :
    ∀ (items : List AudioHistoryItem) (s : AppState), items ≠ [] →
      (appendAll stringify s items).history = (items.reverse ++ s.history).take 50 := by
  intro items
  induction items with
  | nil => intro s h; exact absurd rfl h
  | cons e rest ih =>
    intro s _
    cases rest with
    | nil => simp [appendAll, saveToHistory]
    | cons f rs =>
      have step : appendAll stringify s (e :: f :: rs) =
          appendAll stringify (saveToHistory stringify e s) (f :: rs) := rfl
      rw [step, ih (saveToHistory stringify e s) (by simp)]
      show ((f :: rs).reverse ++ ((e :: s.history).take 50)).take 50 = _
      rw [take_append_take]
      simp

/-- Claim C3: `saveToHistory` prepends and truncates to 50, so 51
successive appends from any starting state leave exactly 50 entries,
namely the 50 most recently appended ones in newest-first order
(`items.reverse.take 50` drops only the oldest of the 51). -/
theorem saveToHistory_bound (stringify : List AudioHistoryItem → String)
    (s : AppState) (items : List AudioHistoryItem) (h51 : items.length = 51) :
    (appendAll stringify s items).history = items.reverse.take 50 ∧
    (appendAll stringify s items).history.length = 50 := by
  have hne : items ≠ [] := by
    intro he; rw [he] at h51; simp at h51
  have hmain : (appendAll stringify s items).history = items.reverse.take 50 := by
    rw [appendAll_history stringify items s hne, List.take_append_eq_append_take]
    have : 50 - items.reverse.length = 0 := by
      rw [List.length_reverse, h51]
    rw [this]
    simp
  refine ⟨hmain, ?_⟩
  rw [hmain, List.length_take, List.length_reverse, h51]
  decide

/-- Concrete history entry used by witnesses. -/
def demoItem (k : Nat) : AudioHistoryItem :=
  { id := toString k, text := "text", voice := "Kore", voiceLabel := "Evelyn",
    language := "en-US", languageName := "English (US)", timestamp := "now",
    audioData := "QQ==" }

/-- 51 concrete history entries. -/
def demoItems : List AudioHistoryItem := (List.range 51).map demoItem

theorem saveToHistory_bound_witness :
    demoItems.length = 51 ∧
    (appendAll (fun _ => "") initialAppState demoItems).history = demoItems.reverse.take 50 ∧
    (appendAll (fun _ => "") initialAppState demoItems).history.length = 50 :=
  ⟨by simp [demoItems], (saveToHistory_bound (fun _ => "") initialAppState demoItems
      (by simp [demoItems])).1,
    (saveToHistory_bound (fun _ => "") initialAppState demoItems (by simp [demoItems])).2⟩

/-- Claim C7: `handleClearHistory` empties the in-memory history and
removes the persisted record entirely; from any prior state, clear
followed by load yields the empty history and a state equal to the
never-written one (`initialAppState`), on which load is the identity. -/
theorem clearHistory_removes_snapshot
    (parse : String → Except String (List AudioHistoryItem)) (s : AppState) :
    handleClearHistory s = initialAppState ∧
    (handleClearHistory s).storage = none ∧
    loadHistory parse (handleClearHistory s) = initialAppState ∧
    (loadHistory parse (handleClearHistory s)).history = [] ∧
    loadHistory parse initialAppState = initialAppState :=
  ⟨rfl, rfl, rfl, rfl, rfl⟩

/-- Claim C8: the load effect never raises — it is a total function —
and an absent or unparseable persisted record leaves the history empty
(the parse failure is only logged in the source). -/
theorem loadHistory_fails_soft
    (parse : String → Except String (List AudioHistoryItem)) (store : Option String) :
    (store = none → loadHistory parse { history := [], storage := store } =
      { history := [], storage := store }) ∧
    (∀ str e, store = some str → parse str = Except.error e →
      (loadHistory parse { history := [], storage := store }).history = []) := by
  constructor
  · intro h; rw [h]; rfl
  · intro str e hs hp
    subst hs
    show (match parse str with
      | Except.ok h => ({ history := h, storage := some str } : AppState)
      | Except.error _ => { history := [], storage := some str }).history = []
    rw [hp]

/-- A `JSON.parse` that always throws, standing in for a corrupt record. -/
def failParse : String → Except String (List AudioHistoryItem) :=
  fun _ => Except.error "SyntaxError"

theorem loadHistory_fails_soft_witness :
    (loadHistory failParse { history := [], storage := some "corrupt" }).history = [] :=
  (loadHistory_fails_soft failParse (some "corrupt")).2 "corrupt" "SyntaxError" rfl rfl

/-! ### Sample cache (src/index.tsx lines 100, 160-189) -/

/-- The in-memory preview cache: a `Map<string, string>` modelled as a
function from key to optional payload. -/
def SampleCache : Type := String → Option String

/-- The cache at process start (`new Map()`). -/
def emptyCache : SampleCache := fun _ => none

/-- Embedding of the cache key construction in `playVoiceSample`
(src/index.tsx line 160): the template string `voiceId-langCode`. -/
def cacheKey (voiceId langCode : String) : String := voiceId ++ "-" ++ langCode

/-- `Map.set`: later writes shadow earlier ones at the same key. -/
def cacheSet (c : SampleCache) (k v : String) : SampleCache :=
  fun q => if q = k then some v else c q

/-- `Map.get`. -/
def cacheGet (c : SampleCache) (k : String) : Option String := c k

/-- Claim C6 counterexample: the cache key is built by string
concatenation with `-`, not by an injective pairing, and language codes
themselves contain `-`; the distinct pairs `("a", "b-c")` and
`("a-b", "c")` share the key `"a-b-c"`, so a put for the first pair is
observable through a get for the second. -/
theorem cacheKey_collision :
    cacheKey "a" "b-c" = cacheKey "a-b" "c" ∧
    (("a", "b-c") : String × String) ≠ ("a-b", "c") ∧
    cacheGet (cacheSet emptyCache (cacheKey "a" "b-c") "payload") (cacheKey "a-b" "c") =
      some "payload" := by
  refine ⟨by decide, by decide, ?_⟩
  show (if cacheKey "a-b" "c" = cacheKey "a" "b-c" then some "payload" else none) =
    some "payload"
  rw [if_pos (by decide)]

theorem hyphen_split_inj :
    ∀ (a b x y : List Char), '-' ∉ a → '-' ∉ b →
      a ++ '-' :: x = b ++ '-' :: y → a = b ∧ x = y := by
  intro a
  induction a with
  | nil =>
    intro b x y _ hb h
    cases b with
    | nil => simpa using h
    | cons d bs =>
      simp only [List.nil_append, List.cons_append, List.cons.injEq] at h
      exact absurd (h.1 ▸ List.mem_cons_self d bs) hb
  | cons c as ih =>
    intro b x y ha hb h
    cases b with
    | nil =>
      simp only [List.cons_append, List.nil_append, List.cons.injEq] at h
      exact absurd (h.1 ▸ List.mem_cons_self c as) ha
    | cons d bs =>
      simp only [List.cons_append, List.cons.injEq] at h
      have hrec := ih bs x y (fun hm => ha (List.mem_cons_of_mem c hm))
        (fun hm => hb (List.mem_cons_of_mem d hm)) h.2
      exact ⟨by rw [h.1, hrec.1], hrec.2⟩

theorem cacheKey_inj (v1 l1 v2 l2 : String)
    (h1 : '-' ∉ v1.data) (h2 : '-' ∉ v2.data)
    (hk : cacheKey v1 l1 = cacheKey v2 l2) : v1 = v2 ∧ l1 = l2 := by
  have hd : v1.data ++ '-' :: l1.data = v2.data ++ '-' :: l2.data := by
    have := congrArg String.data hk
    simpa [cacheKey, String.data_append] using this
  have := hyphen_split_inj v1.data v2.data l1.data l2.data h1 h2 hd
  exact ⟨String.ext this.1, String.ext this.2⟩

/-- Claim C6 amended: put followed by get on the same ordered pair
returns exactly the stored payload, get on a never-put key is absent, and
— provided the voice identifiers contain no `-` character, as every
catalog voice id in the source does — distinct pairs never share a cache
slot, so a put for one pair is never observable through a get for a
different pair. -/
theorem sampleCache_ops (c : SampleCache) (v1 l1 v2 l2 p : String)
    (h1 : '-' ∉ v1.data) (h2 : '-' ∉ v2.data) :
    cacheGet (cacheSet c (cacheKey v1 l1) p) (cacheKey v1 l1) = some p ∧
    cacheGet emptyCache (cacheKey v1 l1) = none ∧
    ((v1, l1) ≠ (v2, l2) → cacheKey v1 l1 ≠ cacheKey v2 l2) ∧
    ((v1, l1) ≠ (v2, l2) →
      cacheGet (cacheSet c (cacheKey v2 l2) p) (cacheKey v1 l1) =
        cacheGet c (cacheKey v1 l1)) := by
  have hne : (v1, l1) ≠ (v2, l2) → cacheKey v1 l1 ≠ cacheKey v2 l2 := by
    intro hpair hk
    have := cacheKey_inj v1 l1 v2 l2 h1 h2 hk
    exact hpair (by rw [this.1, this.2])
  refine ⟨?_, rfl, hne, ?_⟩
  · show (if cacheKey v1 l1 = cacheKey v1 l1 then some p else c (cacheKey v1 l1)) = some p
    rw [if_pos rfl]
  · intro hpair
    show (if cacheKey v1 l1 = cacheKey v2 l2 then some p else c (cacheKey v1 l1)) =
      c (cacheKey v1 l1)
    rw [if_neg (hne hpair)]

theorem sampleCache_ops_witness :
    ('-' ∉ ("Kore" : String).data) ∧ ('-' ∉ ("Zephyr" : String).data) ∧
    (("Kore", "hi-IN") : String × String) ≠ ("Zephyr", "hi-IN") ∧
    cacheGet (cacheSet emptyCache (cacheKey "Kore" "hi-IN") "sample") (cacheKey "Kore" "hi-IN") =
      some "sample" ∧
    cacheKey "Kore" "hi-IN" ≠ cacheKey "Zephyr" "hi-IN" :=
  ⟨by decide, by decide, by decide,
    (sampleCache_ops emptyCache "Kore" "hi-IN" "Zephyr" "hi-IN" "sample"
      (by decide) (by decide)).1,
    (sampleCache_ops emptyCache "Kore" "hi-IN" "Zephyr" "hi-IN" "sample"
      (by decide) (by decide)).2.2.1 (by decide)⟩

/-! ### Playback controller (src/index.tsx lines 98-99, 243-268, 572-577)

The controller keeps one `AudioBufferSourceNode` reference
(`sourceNodeRef`). The model records every handle ever created, indexed
by a creation counter, together with the per-node flags of the audio
host: `started` (`start(0)` was called) and `stopRequested` (`stop()`
was called on a started node; calling `stop()` on a node never started
throws, which the source catches inside `playFromBase64`). Natural
completion is modelled from the spec (§4.3): the `onended` completion
callback of a handle fires spontaneously only for a started,
non-stopped handle that has not already completed, and each `play` is
one atomic step (spec §5: single logical thread, a later request always
observably preempts an earlier one). -/

/-- One `AudioBufferSourceNode` as created by `playFromBase64`. -/
structure SourceNode where
  payload : String
  started : Bool
  stopRequested : Bool
deriving DecidableEq

/-- Controller state: handles ever created (indexed by creation order),
the `sourceNodeRef` slot, the creation counter, the `isPlaying` React
flag, and which handles' completion callbacks have fired. -/
structure PlayerState where
  node : Nat → Option SourceNode
  current : Option Nat
  nextId : Nat
  isPlaying : Bool
  fired : Nat → Bool

/-- The state at process start: no handle, `sourceNodeRef.current = null`. -/
def initPlayer : PlayerState :=
  { node := fun _ => none, current := none, nextId := 0,
    isPlaying := false, fired := fun _ => false }

/-- The guarded stop of a handle: `stop()` marks a started node stopped
and throws on a never-started node; `try { ... } catch {}` in the source
turns the throw into a no-op, so the node map is updated only when the
node was started. -/
def stopNodeAt (node : Nat → Option SourceNode) (i : Nat) : Nat → Option SourceNode :=
  fun j =>
    if j = i then
      (node i).map (fun n => if n.started then { n with stopRequested := true } else n)
    else node j

/-- Embedding of `playFromBase64` (src/index.tsx lines 243-268): stop the
current handle if any (errors swallowed), create a fresh started handle
for the payload, point `sourceNodeRef` at it and set `isPlaying`. -/
def playFromBase64 (p : String) (s : PlayerState) : PlayerState :=
  let node1 :=
    match s.current with
    | some i => stopNodeAt s.node i
    | none => s.node
  { node := fun j =>
      if j = s.nextId then some { payload := p, started := true, stopRequested := false }
      else node1 j,
    current := some s.nextId,
    nextId := s.nextId + 1,
    isPlaying := true,
    fired := s.fired }

/-- Natural completion of handle `i` (spec §4.3): if the handle exists,
is started, not stopped and has not fired yet, its `onended` callback
runs (`() => setIsPlaying(false)`, src/index.tsx line 263); otherwise
nothing happens. -/
def finishPlayback (i : Nat) (s : PlayerState) : PlayerState :=
  if ((s.node i).any fun n => n.started && !n.stopRequested) && !(s.fired i) then
    { s with fired := fun j => if j = i then true else s.fired j, isPlaying := false }
  else s

/-- Embedding of the stop button handler (src/index.tsx lines 572-577):
`if (sourceNodeRef.current) sourceNodeRef.current.stop(); setIsPlaying(false)`. -/
def stopClick (s : PlayerState) : PlayerState :=
  match s.current with
  | some i => { s with node := stopNodeAt s.node i, isPlaying := false }
  | none => { s with isPlaying := false }

/-- Playback-level failures (spec §7 taxonomy). -/
inductive PlaybackError where
  | invalidState
deriving DecidableEq

/-- `AudioBufferSourceNode.stop()` with its failure mode explicit: it
throws `InvalidStateError` iff the node was never started (stopping an
already-stopped or finished node is allowed and idempotent). -/
def stopNode (n : SourceNode) : Except PlaybackError SourceNode :=
  if n.started then Except.ok { n with stopRequested := true }
  else Except.error PlaybackError.invalidState

/-- The stop button handler with the possible throw made explicit (the
source does not wrap this call in `try`/`catch`): `Except.error` means
the click handler raises. -/
def stopClickChecked (s : PlayerState) : Except PlaybackError PlayerState :=
  match s.current with
  | none => Except.ok { s with isPlaying := false }
  | some i =>
    match s.node i with
    | none => Except.error PlaybackError.invalidState
    | some n =>
      match stopNode n with
      | Except.ok n' =>
        Except.ok { s with node := fun j => if j = i then some n' else s.node j,
                           isPlaying := false }
      | Except.error e => Except.error e

/-- Controller events: a `play` request, natural completion of handle
`i`, or a stop-button click. -/
inductive PlayerEvent where
  | play (p : String)
  | finish (i : Nat)
  | stopBtn

/-- One controller step. -/
def playerStep (e : PlayerEvent) (s : PlayerState) : PlayerState :=
  match e with
  | PlayerEvent.play p => playFromBase64 p s
  | PlayerEvent.finish i => finishPlayback i s
  | PlayerEvent.stopBtn => stopClick s

/-- A whole execution: fold the events over a start state. -/
def runPlayer (evs : List PlayerEvent) (s : PlayerState) : PlayerState :=
  evs.foldl (fun st e => playerStep e st) s

/-- Handle `i` is in a started, non-stopped state. -/
def isActive (s : PlayerState) (i : Nat) : Prop :=
  ∃ n, s.node i = some n ∧ n.started = true ∧ n.stopRequested = false

/-- Every started, non-stopped handle is the one `sourceNodeRef` holds —
hence there is at most one such handle. -/
def singleActive (s : PlayerState) : Prop :=
  ∀ i, isActive s i → s.current = some i

/-- Handle `i` exists, is stopped, has not fired, and is older than the
creation counter. Such a handle's completion callback can never fire. -/
def stoppedUnfired (s : PlayerState) (i : Nat) : Prop :=
  (∃ n, s.node i = some n ∧ n.stopRequested = true) ∧
  s.fired i = false ∧ i < s.nextId


theorem finishPlayback_node (j : Nat) (s : PlayerState) :
    (finishPlayback j s).node = s.node := by
  unfold finishPlayback; split <;> rfl

theorem finishPlayback_current (j : Nat) (s : PlayerState) :
    (finishPlayback j s).current = s.current := by
  unfold finishPlayback; split <;> rfl

theorem finishPlayback_nextId (j : Nat) (s : PlayerState) :
    (finishPlayback j s).nextId = s.nextId := by
  unfold finishPlayback; split <;> rfl

theorem stoppedUnfired_play (p : String) (s : PlayerState) (i : Nat)
    (h : stoppedUnfired s i) : stoppedUnfired (playFromBase64 p s) i := by
  obtain ⟨⟨n, hn, hstop⟩, hf, hlt⟩ := h
  have hne : i ≠ s.nextId := by omega
  refine ⟨?_, hf, by simp only [playFromBase64]; omega⟩
  show ∃ m, (playFromBase64 p s).node i = some m ∧ m.stopRequested = true
  simp only [playFromBase64]
  rw [if_neg hne]
  cases hc : s.current with
  | none => exact ⟨n, hn, hstop⟩
  | some c =>
    simp only [stopNodeAt]
    by_cases hic : i = c
    · subst hic
      rw [if_pos rfl, hn]
      refine ⟨_, rfl, ?_⟩
      cases hb : n.started <;> simp [hb, hstop]
    · rw [if_neg hic]
      exact ⟨n, hn, hstop⟩

theorem stoppedUnfired_finish (j : Nat) (s : PlayerState) (i : Nat)
    (h : stoppedUnfired s i) : stoppedUnfired (finishPlayback j s) i := by
  obtain ⟨⟨n, hn, hstop⟩, hf, hlt⟩ := h
  refine ⟨⟨n, by rw [finishPlayback_node]; exact hn, hstop⟩, ?_,
    by rw [finishPlayback_nextId]; exact hlt⟩
  unfold finishPlayback
  split
  · rename_i hcond
    show (if i = j then true else s.fired i) = false
    by_cases hij : i = j
    · subst hij
      rw [hn] at hcond
      simp [hstop] at hcond
    · rw [if_neg hij]; exact hf
  · exact hf

theorem stoppedUnfired_stopClick (s : PlayerState) (i : Nat)
    (h : stoppedUnfired s i) : stoppedUnfired (stopClick s) i := by
  obtain ⟨⟨n, hn, hstop⟩, hf, hlt⟩ := h
  unfold stopClick
  cases hc : s.current with
  | none => exact ⟨⟨n, hn, hstop⟩, hf, hlt⟩
  | some c =>
    refine ⟨?_, hf, hlt⟩
    simp only [stopNodeAt]
    by_cases hic : i = c
    · subst hic
      rw [if_pos rfl, hn]
      refine ⟨_, rfl, ?_⟩
      cases hb : n.started <;> simp [hb, hstop]
    · rw [if_neg hic]
      exact ⟨n, hn, hstop⟩

theorem stoppedUnfired_step (e : PlayerEvent) (s : PlayerState) (i : Nat)
    (h : stoppedUnfired s i) : stoppedUnfired (playerStep e s) i := by
  cases e with
  | play p => exact stoppedUnfired_play p s i h
  | finish j => exact stoppedUnfired_finish j s i h
  | stopBtn => exact stoppedUnfired_stopClick s i h

theorem stoppedUnfired_run (evs : List PlayerEvent) :
    ∀ (s : PlayerState) (i : Nat), stoppedUnfired s i →
      stoppedUnfired (runPlayer evs s) i := by
  induction evs with
  | nil => intro s i h; exact h
  | cons e rest ih =>
    intro s i h
    exact ih (playerStep e s) i (stoppedUnfired_step e s i h)

theorem singleActive_play (p : String) (s : PlayerState)
    (h : singleActive s) : singleActive (playFromBase64 p s) := by
  intro i hi
  show some s.nextId = some i
  by_cases hne : i = s.nextId
  · rw [hne]
  · exfalso
    obtain ⟨m, hm, hstart, hstop⟩ := hi
    simp only [playFromBase64] at hm
    rw [if_neg hne] at hm
    cases hc : s.current with
    | none =>
      rw [hc] at hm
      have := h i ⟨m, hm, hstart, hstop⟩
      rw [hc] at this
      exact Option.noConfusion this
    | some c =>
      rw [hc] at hm
      simp only [stopNodeAt] at hm
      by_cases hic : i = c
      · subst hic
        cases hni : s.node i with
        | none => rw [if_pos rfl, hni] at hm; exact Option.noConfusion hm
        | some n =>
          rw [if_pos rfl, hni] at hm
          simp only [Option.map_some'] at hm
          cases hm
          cases hb : n.started with
          | false => simp [hb] at hstart
          | true => simp [hb] at hstop
      · rw [if_neg hic] at hm
        have := h i ⟨m, hm, hstart, hstop⟩
        rw [hc] at this
        exact hic (Option.some.inj this).symm

theorem singleActive_finish (j : Nat) (s : PlayerState)
    (h : singleActive s) : singleActive (finishPlayback j s) := by
  intro i hi
  obtain ⟨m, hm, hstart, hstop⟩ := hi
  rw [finishPlayback_node] at hm
  rw [finishPlayback_current]
  exact h i ⟨m, hm, hstart, hstop⟩

theorem singleActive_stopClick (s : PlayerState)
    (h : singleActive s) : singleActive (stopClick s) := by
  intro i hi
  obtain ⟨m, hm, hstart, hstop⟩ := hi
  unfold stopClick at hm ⊢
  cases hc : s.current with
  | none =>
    rw [hc] at hm
    have := h i ⟨m, hm, hstart, hstop⟩
    rw [hc] at this
    exact Option.noConfusion this
  | some c =>
    rw [hc] at hm
    simp only [stopNodeAt] at hm
    by_cases hic : i = c
    · rw [hic]
    · exfalso
      rw [if_neg hic] at hm
      have := h i ⟨m, hm, hstart, hstop⟩
      rw [hc] at this
      exact hic (Option.some.inj this).symm

theorem singleActive_step (e : PlayerEvent) (s : PlayerState)
    (h : singleActive s) : singleActive (playerStep e s) := by
  cases e with
  | play p => exact singleActive_play p s h
  | finish j => exact singleActive_finish j s h
  | stopBtn => exact singleActive_stopClick s h

theorem singleActive_run (evs : List PlayerEvent) :
    ∀ s : PlayerState, singleActive s → singleActive (runPlayer evs s) := by
  induction evs with
  | nil => intro s h; exact h
  | cons e rest ih =>
    intro s h
    exact ih (playerStep e s) (singleActive_step e s h)

/-- Claim C4: from any controller state (with a fresh creation counter
and at most one active handle), `play(p1)` followed by `play(p2)` before
`p1` completes leaves `p1`'s handle stopped, `p1`'s completion callback
never fires in any continuation of the execution, `p2`'s completion
callback fires on its natural completion — and no other handle's
callback fires with it — and at most one handle is ever in a started,
non-stopped state afterwards. Completion semantics of the audio host is
modelled from spec §4.3 and §5 (only a started, non-stopped handle
completes; `play` is atomic). -/
theorem playback_preemption (s : PlayerState) (p1 p2 : String)
    (hf : ∀ i, s.nextId ≤ i → s.fired i = false)
    (hsa : singleActive s) :
    (playFromBase64 p2 (playFromBase64 p1 s)).node s.nextId =
      some { payload := p1, started := true, stopRequested := true } ∧
    (∀ evs, (runPlayer evs (playFromBase64 p2 (playFromBase64 p1 s))).fired s.nextId = false) ∧
    (finishPlayback (s.nextId + 1) (playFromBase64 p2 (playFromBase64 p1 s))).fired
      (s.nextId + 1) = true ∧
    (∀ j, j ≠ s.nextId + 1 →
      (finishPlayback (s.nextId + 1) (playFromBase64 p2 (playFromBase64 p1 s))).fired j =
        s.fired j) ∧
    (∀ evs, singleActive (runPlayer evs (playFromBase64 p2 (playFromBase64 p1 s)))) := by
  have hnode1 : (playFromBase64 p2 (playFromBase64 p1 s)).node s.nextId =
      some { payload := p1, started := true, stopRequested := true } := by
    simp [playFromBase64, stopNodeAt]
  have hfired12 : (playFromBase64 p2 (playFromBase64 p1 s)).fired = s.fired := rfl
  refine ⟨hnode1, ?_, ?_, ?_, ?_⟩
  · intro evs
    have hsu : stoppedUnfired (playFromBase64 p2 (playFromBase64 p1 s)) s.nextId := by
      refine ⟨⟨_, hnode1, rfl⟩, ?_, ?_⟩
      · rw [hfired12]; exact hf s.nextId (le_refl _)
      · show s.nextId < s.nextId + 1 + 1
        omega
    exact (stoppedUnfired_run evs _ s.nextId hsu).2.1
  · have hnode2 : (playFromBase64 p2 (playFromBase64 p1 s)).node (s.nextId + 1) =
        some { payload := p2, started := true, stopRequested := false } := by
      simp [playFromBase64]
    have hfired2 : (playFromBase64 p2 (playFromBase64 p1 s)).fired (s.nextId + 1) = false :=
      hf (s.nextId + 1) (by omega)
    simp [finishPlayback, hnode2, hfired2]
  · intro j hj
    unfold finishPlayback
    split
    · show (if j = s.nextId + 1 then true else s.fired j) = s.fired j
      rw [if_neg hj]
    · rfl
  · intro evs
    exact singleActive_run evs _ (singleActive_play p2 _ (singleActive_play p1 s hsa))

theorem playback_preemption_witness :
    (∀ i, initPlayer.nextId ≤ i → initPlayer.fired i = false) ∧
    singleActive initPlayer ∧
    ((playFromBase64 "P2" (playFromBase64 "P1" initPlayer)).node initPlayer.nextId =
      some { payload := "P1", started := true, stopRequested := true } ∧
     (finishPlayback (initPlayer.nextId + 1)
        (playFromBase64 "P2" (playFromBase64 "P1" initPlayer))).fired
        (initPlayer.nextId + 1) = true) := by
  have hsa : singleActive initPlayer := by
    intro i hi
    obtain ⟨n, hn, _, _⟩ := hi
    exact Option.noConfusion hn
  have hmain := playback_preemption initPlayer "P1" "P2" (fun i _ => rfl) hsa
  exact ⟨fun i _ => rfl, hsa, hmain.1, hmain.2.2.1⟩

/-- Every handle `sourceNodeRef` points at has been started: `play`
assigns the ref only after calling `start(0)` (src/index.tsx lines
265-266), and the ref is never reassigned elsewhere. -/
def refStarted (s : PlayerState) : Prop :=
  ∀ i, s.current = some i → ∃ n, s.node i = some n ∧ n.started = true

theorem refStarted_play (p : String) (s : PlayerState) :
    refStarted (playFromBase64 p s) := by
  intro i hi
  have : i = s.nextId := Option.some.inj hi.symm
  subst this
  refine ⟨{ payload := p, started := true, stopRequested := false }, ?_, rfl⟩
  simp [playFromBase64]

theorem refStarted_finish (j : Nat) (s : PlayerState)
    (h : refStarted s) : refStarted (finishPlayback j s) := by
  intro i hi
  rw [finishPlayback_current] at hi
  rw [finishPlayback_node]
  exact h i hi

theorem refStarted_stopClick (s : PlayerState)
    (h : refStarted s) : refStarted (stopClick s) := by
  intro i hi
  unfold stopClick at hi ⊢
  cases hc : s.current with
  | none =>
    rw [hc] at hi
    exact Option.noConfusion hi
  | some c =>
    rw [hc] at hi
    have hic : i = c := Option.some.inj hi.symm
    subst hic
    obtain ⟨n, hn, hst⟩ := h i hc
    refine ⟨if n.started then { n with stopRequested := true } else n, ?_, ?_⟩
    · show stopNodeAt s.node i i = _
      simp only [stopNodeAt]
      rw [if_pos trivial, hn]
      rfl
    · rw [if_pos hst]
      exact hst


theorem refStarted_step (e : PlayerEvent) (s : PlayerState)
    (h : refStarted s) : refStarted (playerStep e s) := by
  cases e with
  | play p => exact refStarted_play p s
  | finish j => exact refStarted_finish j s h
  | stopBtn => exact refStarted_stopClick s h

theorem refStarted_run (evs : List PlayerEvent) :
    ∀ s : PlayerState, refStarted s → refStarted (runPlayer evs s) := by
  induction evs with
  | nil => intro s h; exact h
  | cons e rest ih =>
    intro s h
    exact ih (playerStep e s) (refStarted_step e s h)

theorem refStarted_init : refStarted initPlayer := by
  intro i hi
  exact Option.noConfusion hi

/-- Claim C10: the stop button never raises. When the controller is idle
(`sourceNodeRef.current = null`) the click is a no-op apart from clearing
the playing flag and the state stays idle; when the ref holds a handle —
started by construction, possibly already stopped or finished — `stop()`
is idempotent and does not throw, since `AudioBufferSourceNode.stop`
throws only for a node that was never started; and along every execution
from process start the click handler returns normally. -/
theorem stop_never_raises (s : PlayerState) (href : refStarted s) :
    (s.current = none → stopClickChecked s =
      Except.ok { s with isPlaying := false }) ∧
    (∃ s', stopClickChecked s = Except.ok s' ∧ s'.isPlaying = false ∧
      s'.current = s.current) ∧
    (∀ evs, ∃ s', stopClickChecked (runPlayer evs initPlayer) = Except.ok s' ∧
      s'.isPlaying = false) := by
  have hok : ∀ t : PlayerState, refStarted t →
      ∃ t', stopClickChecked t = Except.ok t' ∧ t'.isPlaying = false ∧
        t'.current = t.current := by
    intro t ht
    unfold stopClickChecked
    split
    · exact ⟨_, rfl, rfl, rfl⟩
    · rename_i i hc
      obtain ⟨n, hn, hst⟩ := ht i hc
      split
      · rename_i hnone
        rw [hn] at hnone
        exact Option.noConfusion hnone
      · rename_i m hm
        rw [hn] at hm
        have hmn : n = m := Option.some.inj hm
        subst hmn
        split
        · exact ⟨_, rfl, rfl, rfl⟩
        · rename_i e he
          unfold stopNode at he
          rw [if_pos hst] at he
          exact Except.noConfusion he
  refine ⟨?_, hok s href, ?_⟩
  · intro hc
    unfold stopClickChecked
    rw [hc]
  · intro evs
    obtain ⟨t', ht', hp, _⟩ := hok (runPlayer evs initPlayer)
      (refStarted_run evs initPlayer refStarted_init)
    exact ⟨t', ht', hp⟩

theorem stop_never_raises_witness :
    refStarted (stopClick (playFromBase64 "pay" initPlayer)) ∧
    (∃ s', stopClickChecked (stopClick (playFromBase64 "pay" initPlayer)) =
      Except.ok s' ∧ s'.isPlaying = false ∧
      s'.current = (stopClick (playFromBase64 "pay" initPlayer)).current) ∧
    stopClickChecked initPlayer = Except.ok { initPlayer with isPlaying := false } := by
  have href : refStarted (stopClick (playFromBase64 "pay" initPlayer)) :=
    refStarted_stopClick _ (refStarted_play "pay" initPlayer)
  exact ⟨href, (stop_never_raises _ href).2.1,
    (stop_never_raises initPlayer refStarted_init).1 rfl⟩

/-! ### History identifiers (src/index.tsx lines 222-231)

`generateTTS` creates each history entry with
`id: Date.now().toString()` — the decimal rendering of the millisecond
clock. A session's creations are modelled by the list of `Date.now()`
readings the successive `generateTTS` calls observe, in call order. -/

/-- Embedding of the id creation in `generateTTS` (src/index.tsx line
223): `Date.now().toString()` for a clock reading `now`. -/
def mkId (now : Nat) : String := toString now

/-- Identifiers of a session whose `generateTTS` calls observe the given
`Date.now()` readings, in creation order. -/
def sessionIds (timestamps : List Nat) : List String := timestamps.map mkId

/-- Value of a decimal digit string, most significant digit first. -/
def digitsVal (cs : List Char) : Nat :=
  cs.foldl (fun acc c => acc * 10 + (c.toNat - 48)) 0

/-- The millisecond timestamp an identifier denotes. -/
def idVal (id : String) : Nat := digitsVal id.data

theorem digitChar_toNat : ∀ k < 10, (Nat.digitChar k).toNat = 48 + k := by decide

theorem toDigitsCore_shift (b : Nat) :
    ∀ (fuel n : Nat) (ds : List Char),
      Nat.toDigitsCore b fuel n ds = Nat.toDigitsCore b fuel n [] ++ ds := by
  intro fuel
  induction fuel with
  | zero => intro n ds; rfl
  | succ fuel ih =>
    intro n ds
    by_cases h0 : n / b = 0
    · rw [show Nat.toDigitsCore b (fuel + 1) n ds = Nat.digitChar (n % b) :: ds from by
          rw [Nat.toDigitsCore]; simp [h0],
        show Nat.toDigitsCore b (fuel + 1) n [] = [Nat.digitChar (n % b)] from by
          rw [Nat.toDigitsCore]; simp [h0]]
      rfl
    · rw [show Nat.toDigitsCore b (fuel + 1) n ds =
          Nat.toDigitsCore b fuel (n / b) (Nat.digitChar (n % b) :: ds) from by
          rw [Nat.toDigitsCore]; simp [h0],
        show Nat.toDigitsCore b (fuel + 1) n [] =
          Nat.toDigitsCore b fuel (n / b) [Nat.digitChar (n % b)] from by
          rw [Nat.toDigitsCore]; simp [h0]]
      rw [ih (n / b) (Nat.digitChar (n % b) :: ds),
        ih (n / b) [Nat.digitChar (n % b)]]
      simp

theorem digitsVal_append (xs : List Char) (c : Char) :
    digitsVal (xs ++ [c]) = digitsVal xs * 10 + (c.toNat - 48) := by
  unfold digitsVal
  rw [List.foldl_append]
  rfl

theorem digitsVal_toDigitsCore :
    ∀ (fuel n : Nat), n < 10 ^ fuel →
      digitsVal (Nat.toDigitsCore 10 fuel n []) = n := by
  intro fuel
  induction fuel with
  | zero =>
    intro n h
    have : n = 0 := by simpa using h
    subst this
    rfl
  | succ fuel ih =>
    intro n h
    by_cases h0 : n / 10 = 0
    · rw [show Nat.toDigitsCore 10 (fuel + 1) n [] = [Nat.digitChar (n % 10)] from by
        rw [Nat.toDigitsCore]; simp [h0]]
      show 0 * 10 + ((Nat.digitChar (n % 10)).toNat - 48) = n
      rw [digitChar_toNat (n % 10) (by omega)]
      omega
    · rw [show Nat.toDigitsCore 10 (fuel + 1) n [] =
          Nat.toDigitsCore 10 fuel (n / 10) [Nat.digitChar (n % 10)] from by
          rw [Nat.toDigitsCore]; simp [h0]]
      rw [toDigitsCore_shift 10 fuel (n / 10) [Nat.digitChar (n % 10)]]
      rw [digitsVal_append]
      have hp : 10 ^ (fuel + 1) = 10 ^ fuel * 10 := pow_succ 10 fuel
      rw [ih (n / 10) (by omega), digitChar_toNat (n % 10) (by omega)]
      omega

theorem idVal_mkId (t : Nat) : idVal (mkId t) = t := by
  show digitsVal (Nat.toDigitsCore 10 (t + 1) t []) = t
  refine digitsVal_toDigitsCore (t + 1) t ?_
  exact lt_of_lt_of_le (Nat.lt_pow_self (by norm_num) t)
    (Nat.pow_le_pow_right (by norm_num) (Nat.le_succ t))

theorem mkId_injective {a b : Nat} (h : mkId a = mkId b) : a = b := by
  have hv := congrArg idVal h
  rwa [idVal_mkId, idVal_mkId] at hv

/-- Claim C9 counterexample: `Date.now()` has millisecond resolution, so
two entries created during the same millisecond (two `generateTTS` calls
observing the same clock reading) receive the same identifier — the
identifiers of such a session are not pairwise distinct. -/
theorem sessionIds_same_millisecond_collision :
    ¬ (sessionIds [1700000000000, 1700000000000]).Nodup ∧
    sessionIds [1700000000000, 1700000000000] =
      ["1700000000000", "1700000000000"] := by
  refine ⟨?_, by decide⟩
  rw [show sessionIds [1700000000000, 1700000000000] =
    ["1700000000000", "1700000000000"] from by decide]
  intro h
  exact (List.nodup_cons.mp h).1 (by simp)

/-- Claim C9 amended: provided the clock readings strictly increase
between creations (successive `generateTTS` calls fall in distinct
milliseconds), the identifiers of a session are pairwise distinct, and
an entry created later has an identifier denoting a strictly larger
millisecond timestamp — identifiers are unique and monotonically
creation-ordered. -/
theorem sessionIds_unique_of_strict_clock (ts : List Nat)
    (hstrict : List.Chain' (· < ·) ts) :
    (sessionIds ts).Nodup ∧
    (sessionIds ts).Pairwise (fun a b => idVal a < idVal b) := by
  have hp : ts.Pairwise (· < ·) := List.chain'_iff_pairwise.mp hstrict
  constructor
  · exact List.Pairwise.map mkId
      (fun a b hab heq => Nat.ne_of_lt hab (mkId_injective heq)) hp
  · exact List.Pairwise.map mkId
      (fun a b hab => by rw [idVal_mkId, idVal_mkId]; exact hab) hp

theorem sessionIds_unique_witness :
    List.Chain' (· < ·) [1000, 2026, 31337] ∧
    (sessionIds [1000, 2026, 31337]).Nodup ∧
    (sessionIds [1000, 2026, 31337]).Pairwise (fun a b => idVal a < idVal b) :=
  ⟨by norm_num [List.chain'_cons],
    (sessionIds_unique_of_strict_clock [1000, 2026, 31337]
      (by norm_num [List.chain'_cons])).1,
    (sessionIds_unique_of_strict_clock [1000, 2026, 31337]
      (by norm_num [List.chain'_cons])).2⟩
